import Mathlib

/-!
Verification of the `yt-transcription-api` repository (files `app.py`, `auth.py`)
against its natural-language specification.  The Python source is shallowly
embedded: pure helpers become Lean functions, the Flask endpoint becomes a
function from the collaborator outcomes of one request to the response it
produces, together with invocation counts for the audio-download and
speech-to-text collaborators.
-/

namespace YT

/-- Models Python `' '.join(xs)`: joins a list of strings with single spaces. -/
def joinSpace : List String → String
  | [] => ""
  | [x] => x
  | x :: y :: xs => x ++ " " ++ joinSpace (y :: xs)

/-- Embeds the chunking expression in `improve_text_with_gpt4` (app.py line 91):
`chunks = [text[i:i + 4096] for i in range(0, len(text), 4096)]`.
`range(0, n, 4096)` has `(n + 4095) / 4096` elements `0, 4096, 8192, ...`,
and `text[i:i+4096]` is `(text.drop i).take 4096`. -/
def sliceChunks (text : List Char) : List (List Char) :=
  (List.range' 0 ((text.length + 4095) / 4096) 4096).map
    (fun i => (text.drop i).take 4096)

/-- Whitespace test on characters, used only on the specification side to speak
about "words" of a text (the source never splits on whitespace itself). -/
def isSpace (c : Char) : Bool := c.isWhitespace

/-- Helper for `words`: accumulates the current (reversed) word. -/
def wordsAux : List Char → List Char → List (List Char)
  | [], cur => if cur = [] then [] else [cur.reverse]
  | c :: rest, cur =>
    if isSpace c then
      if cur = [] then wordsAux rest [] else cur.reverse :: wordsAux rest []
    else wordsAux rest (c :: cur)

/-- Specification-side word splitter: the maximal whitespace-free words of a
text, in order (the word sequence the spec's chunking guarantee talks about). -/
def words (l : List Char) : List (List Char) := wordsAux l []

/-- Character class `[0-9A-Za-z_-]` of the pattern in `get_youtube_id`
(app.py line 35). -/
def isIdChar (c : Char) : Bool :=
  c.isDigit || c.isUpper || c.isLower || c == '_' || c == '-'

/-- Tries to read the capture group of the pattern: exactly 11 characters of
the class `[0-9A-Za-z_-]` at the front of `l` (the trailing `.*` of the
pattern matches anything, including the empty string, so it adds no
constraint). -/
def idTokenAt (l : List Char) : Option (List Char) :=
  if (l.take 11).length = 11 && (l.take 11).all isIdChar
  then some (l.take 11) else none

/-- One attempt of the pattern `(?:v=|/)([0-9A-Za-z_-](11 times)).*` at a fixed
start position: the marker `v=` or `/` followed by the 11-character group. -/
def matchAt : List Char → Option (List Char)
  | 'v' :: '=' :: rest => idTokenAt rest
  | '/' :: rest => idTokenAt rest
  | _ => none

/-- `re.search` semantics: try the pattern at every position, left to right,
returning the first (leftmost) match's capture group. -/
def searchFrom : List Char → Option (List Char)
  | [] => none
  | c :: rest =>
    match matchAt (c :: rest) with
    | some t => some t
    | none => searchFrom rest

/-- Embeds `get_youtube_id` (app.py lines 33-36):
`re.search` of the pattern over the URL, returning the capture group if a
match exists and `None` otherwise.  Total: it never raises. -/
def get_youtube_id (url : String) : Option String :=
  (searchFrom url.data).map (fun t => ⟨t⟩)

/-- Specification-side notion of a well-formed video identifier: exactly 11
characters of the class `[0-9A-Za-z_-]`. -/
def IsIdToken (t : List Char) : Prop :=
  t.length = 11 ∧ ∀ c ∈ t, isIdChar c = true

/-- Specification-side notion of C6's pattern: `t` occurs in `l` immediately
after `v=` or after `/`. -/
def MarksToken (l t : List Char) : Prop :=
  ∃ pre post,
    l = pre ++ 'v' :: '=' :: (t ++ post) ∨ l = pre ++ '/' :: (t ++ post)

/-- The URL contains a well-formed 11-character token right after `v=` or `/`. -/
def HasToken (l t : List Char) : Prop := IsIdToken t ∧ MarksToken l t

/-- Finds the index of the first occurrence of `sep` in `l` (the position
at which Python's `str.split` consumes its next separator). -/
def findOcc (sep : List Char) : List Char → Option Nat
  | [] => if sep.isEmpty then some 0 else none
  | c :: rest =>
    if sep.isPrefixOf (c :: rest) then some 0
    else (findOcc sep rest).map (· + 1)

/-- Fuel-driven helper for `splitLast`: repeatedly drops everything up to and
including the next occurrence of `sep` (Python's non-overlapping
left-to-right split); what remains when no occurrence is left is the last
element of `l.split(sep)`.  The fuel is only a termination device: one unit
is spent per separator consumed, and each separator occurrence consumes at
least one character, so `l.length` units always suffice. -/
def splitLastAux (sep : List Char) : Nat → List Char → List Char
  | 0, l => l
  | fuel + 1, l =>
    match findOcc sep l with
    | none => l
    | some i => splitLastAux sep fuel (l.drop (i + sep.length))

/-- Models Python `s.split(sep)[-1]` for a nonempty separator: the substring
after the last separator occurrence of the non-overlapping left-to-right
scan (the whole string when `sep` does not occur). -/
def splitLast (sep s : String) : String :=
  ⟨splitLastAux sep.data s.data.length s.data⟩

/-- One HTTP response body: `jsonify({"result": ...})` or
`jsonify({"error": ...})`. -/
inductive RespBody where
  | result (s : String)
  | error (s : String)
deriving DecidableEq, Repr

/-- An HTTP response: status code plus JSON body. -/
structure Resp where
  status : Nat
  body : RespBody
deriving DecidableEq, Repr

/-- Embeds `require_custom_authentication` (auth.py lines 4-15) as a function
of the configured secret (`os.getenv("SECRET_CODE")`, `none` when unset) and
the request's `Authorization` header (`none` when absent).  Mirrors
`if not auth_header or auth_header.split("Bearer ")[-1] != secret_code`:
`not auth_header` is true for a missing or empty header; an unset secret is
Python `None`, which no string equals.  Returns `some` of the early 401
response when the request is rejected, `none` when the wrapped handler runs. -/
def require_custom_authentication (secret_code auth_header : Option String) :
    Option Resp :=
  match auth_header with
  | none => some ⟨401, .error "Unauthorized"⟩
  | some h =>
    if h = "" then some ⟨401, .error "Unauthorized"⟩
    else
      match secret_code with
      | none => some ⟨401, .error "Unauthorized"⟩
      | some s =>
        if splitLast "Bearer " h = s then none
        else some ⟨401, .error "Unauthorized"⟩

/-- Outcome of the captions collaborator for one request:
`YouTubeTranscriptApi.get_transcript` either returns the list of caption
entries (here just their `text` fields, in order) or raises
`TranscriptsDisabled`. -/
inductive CaptionFetch where
  | entries (es : List String)
  | disabled

/-- Embeds `process_transcript` (app.py lines 39-47): on success the entry
texts are joined with single spaces; on `TranscriptsDisabled` it returns
`None`. -/
def process_transcript (fetch : CaptionFetch) : Option String :=
  match fetch with
  | .entries es => some (joinSpace es)
  | .disabled => none

/-- Per-chunk outcome of the completion collaborator
(`client.chat.completions.create`): the formatted text, or the message of a
raised `OpenAIError`. -/
abbrev Completion := String → Except String String

/-- Embeds `process_chunk` (app.py lines 74-86): returns the model's text, and
converts a raised `OpenAIError` into the inline string
`"OpenAI API error: " + str(e)` instead of propagating it. -/
def process_chunk (completion : Completion) (chunk : String) : String :=
  match completion chunk with
  | .ok t => t
  | .error e => "OpenAI API error: " ++ e

/-- The chunk list of `improve_text_with_gpt4`, at the `String` level. -/
def textChunks (text : String) : List String :=
  (sliceChunks text.data).map (fun c => ⟨c⟩)

/-- Embeds `improve_text_with_gpt4` (app.py lines 89-94): slice the text into
4096-character chunks, process every chunk, and join the results (in chunk
order, which is what `asyncio.gather` returns) with single spaces. -/
def improve_text_with_gpt4 (completion : Completion) (text : String) : String :=
  joinSpace ((textChunks text).map (process_chunk completion))

/-- The collaborator outcomes of one request: what the caption fetch, the
audio download (`download_audio`, app.py lines 50-71: `some` output path on
success, `None` after its catch-all `except`), the Whisper transcription and
the per-chunk completion calls would return for this request. -/
structure Env where
  captions : CaptionFetch
  audio : Option String
  stt : String
  completion : Completion

/-- Observable outcome of one `/transcribe` request: the response, how many
times the audio-download and speech-to-text collaborators were invoked, and
whether an `audio.mp3` written by this request still exists on disk when the
response returns.  The source contains no `os.remove`/unlink/cleanup call on
any path, so a successful `download_audio` leaves its output file in place. -/
structure Trace where
  resp : Resp
  audioCalls : Nat
  sttCalls : Nat
  audioFileLeft : Bool
deriving DecidableEq, Repr

/-- The Whisper branch of `transcribe` (app.py lines 116-128): download the
audio; on failure answer 500 with the audio-specific message (Whisper never
runs); on success transcribe the file and format the result.  The audio file
is written and never deleted. -/
def whisper_path (env : Env) : Trace :=
  match env.audio with
  | none => ⟨⟨500, .error "Could not retrieve audio for Whisper AI."⟩, 1, 0, false⟩
  | some _path =>
    ⟨⟨200, .result (improve_text_with_gpt4 env.completion env.stt)⟩, 1, 1, true⟩

/-- Embeds the `transcribe` endpoint (app.py lines 97-137), after
authentication: missing/empty `url` gives 400; an unextractable video id
gives 400; then the caption text is used when `process_transcript` returns a
non-falsy string (`if not transcript_text` treats both `None` and `""` as
absent), otherwise the Whisper branch runs; the chosen text is formatted by
`improve_text_with_gpt4` and returned as 200. -/
def transcribe (env : Env) (url : Option String) : Trace :=
  match url with
  | none => ⟨⟨400, .error "No YouTube URL provided"⟩, 0, 0, false⟩
  | some u =>
    if u = "" then ⟨⟨400, .error "No YouTube URL provided"⟩, 0, 0, false⟩
    else
      match get_youtube_id u with
      | none => ⟨⟨400, .error "Invalid YouTube URL"⟩, 0, 0, false⟩
      | some _vid =>
        match process_transcript env.captions with
        | some t =>
          if t = "" then whisper_path env
          else ⟨⟨200, .result (improve_text_with_gpt4 env.completion t)⟩, 0, 0, false⟩
        | none => whisper_path env

/-- Concurrency model for `asyncio.gather` (app.py line 93): each task `i`
eventually writes its result into slot `i` of a result array; `order` is the
sequence of task indices in the order their calls complete.  `gather` only
resolves after every slot is written. -/
def fillSlots (n : Nat) (r : Nat → String) (order : List Nat) :
    List (Option String) :=
  order.foldl (fun acc i => acc.set i (some (r i))) (List.replicate n none)

/-- `improve_text_with_gpt4` under an explicit completion schedule: the chunk
tasks finish in the order given by `order`, each filling its own slot, and
the final text joins the slots in index order. -/
def improveUnderSchedule (completion : Completion) (text : String)
    (order : List Nat) : String :=
  joinSpace ((fillSlots (textChunks text).length
    (fun i => process_chunk completion ((textChunks text).getD i "")) order).map
    (fun o => o.getD ""))

/-- A completion collaborator used in the concrete evaluations below: it
raises `OpenAIError` with message `boom` exactly on the chunk `a` and
formats every other chunk to `fixed`. -/
def wComp : Completion :=
  fun c => if c = "a" then Except.error "boom" else Except.ok "fixed"

/-! ### Chunker lemmas -/

/-- Arithmetic for peeling one chunk off the front: the Python `range` over a
text of positive length `m` has one more element than the range over the
text with its first 4096 characters removed. -/
theorem div_peel (m : Nat) (hm : 1 ≤ m) :
    (m + 4095) / 4096 = ((m - 4096) + 4095) / 4096 + 1 := by
  rcases le_or_lt m 4096 with h | h
  · have h0 : m - 4096 = 0 := Nat.sub_eq_zero_of_le h
    have h1 : m + 4095 = (m - 1) + 4096 := by omega
    rw [h0, h1, Nat.add_div_right _ (by norm_num)]
    have h2 : (m - 1) / 4096 = 0 := Nat.div_eq_of_lt (by omega)
    rw [h2]
  · have h1 : m + 4095 = ((m - 4096) + 4095) + 4096 := by omega
    rw [h1, Nat.add_div_right _ (by norm_num)]

/-- Peeling lemma: on a nonempty text the chunk list starts with the first
4096 characters, followed by the chunks of the rest. -/
theorem sliceChunks_cons (l : List Char) (h : l ≠ []) :
    sliceChunks l = l.take 4096 :: sliceChunks (l.drop 4096) := by
  have hm : 1 ≤ l.length := List.length_pos.mpr h
  unfold sliceChunks
  rw [List.length_drop, div_peel l.length hm, List.range'_succ]
  simp only [List.map_cons, List.drop_zero, Nat.zero_add]
  congr 1
  rw [← List.map_add_range' 4096 0 _ 4096, List.map_map]
  apply List.map_congr_left
  intro i _
  simp only [Function.comp_apply, List.drop_drop]

/-- Auxiliary strong induction for losslessness. -/
theorem sliceChunks_join_aux :
    ∀ n (l : List Char), l.length ≤ n → (sliceChunks l).flatten = l := by
  intro n
  induction n with
  | zero =>
    intro l hl
    have : l = [] := List.eq_nil_of_length_eq_zero (Nat.le_zero.mp hl)
    subst this
    rfl
  | succ n ih =>
    intro l hl
    by_cases h : l = []
    · subst h; rfl
    · rw [sliceChunks_cons l h, List.flatten_cons,
        ih (l.drop 4096) (by rw [List.length_drop]; omega)]
      exact List.take_append_drop 4096 l

/-- Nonemptiness of a positive-length replicate, as needed by the peel lemma. -/
theorem replicate_ne_nil_of_pos (n : Nat) (c : Char) (h : 0 < n) :
    List.replicate n c ≠ [] :=
  List.length_pos.mp (by rwa [List.length_replicate])

/-- The chunk list of a 4097-character one-letter text: one full 4096-character
chunk followed by the single leftover character. -/
theorem sliceChunks_replicate_4097 (c : Char) :
    sliceChunks (List.replicate 4097 c) = [List.replicate 4096 c, [c]] := by
  rw [sliceChunks_cons _ (replicate_ne_nil_of_pos 4097 c (by norm_num)),
    List.take_replicate, List.drop_replicate]
  have h1 : min 4096 4097 = 4096 := by norm_num
  have h2 : 4097 - 4096 = 1 := by norm_num
  rw [h1, h2, List.replicate_one]
  have h3 : sliceChunks [c] = [[c]] := by unfold sliceChunks; norm_num
  rw [h3]

/-! ### Word lemmas (specification side) -/

/-- On whitespace-free input, `wordsAux` yields the single word formed by the
accumulator and the remaining input. -/
theorem wordsAux_no_space (l : List Char) (cur : List Char)
    (hl : ∀ c ∈ l, isSpace c = false) (hne : cur ≠ [] ∨ l ≠ []) :
    wordsAux l cur = [cur.reverse ++ l] := by
  induction l generalizing cur with
  | nil =>
    rcases hne with h | h
    · simp [wordsAux, h]
    · exact absurd rfl h
  | cons c rest ih =>
    have hc : isSpace c = false := hl c (by simp)
    simp only [wordsAux, hc, Bool.false_eq_true, if_false]
    rw [ih (c :: cur) (fun x hx => hl x (by simp [hx])) (Or.inl (by simp))]
    simp

/-- A nonempty whitespace-free text is exactly one word. -/
theorem words_no_space (l : List Char) (hl : ∀ c ∈ l, isSpace c = false)
    (hne : l ≠ []) : words l = [l] := by
  unfold words
  rw [wordsAux_no_space l [] hl (Or.inr hne)]
  simp

/-! ### Identifier-extraction lemmas -/

/-- Unfolding equation for `searchFrom` on a nonempty list. -/
theorem searchFrom_cons (c : Char) (rest : List Char) :
    searchFrom (c :: rest) =
      match matchAt (c :: rest) with
      | some t => some t
      | none => searchFrom rest := rfl

theorem idTokenAt_sound (l t : List Char) (h : idTokenAt l = some t) :
    IsIdToken t ∧ ∃ post, l = t ++ post := by
  unfold idTokenAt at h
  split at h
  next hc =>
    cases h
    obtain ⟨h1, h2⟩ := Bool.and_eq_true _ _ |>.mp hc
    exact ⟨⟨of_decide_eq_true h1, fun c hcmem => List.all_eq_true.mp h2 c hcmem⟩,
      l.drop 11, (List.take_append_drop 11 l).symm⟩
  next => cases h

theorem idTokenAt_complete (t post : List Char) (h : IsIdToken t) :
    idTokenAt (t ++ post) = some t := by
  obtain ⟨hlen, hall⟩ := h
  have htake : (t ++ post).take 11 = t := by
    rw [← hlen]
    exact List.take_left t post
  have hcond : (decide (((t ++ post).take 11).length = 11)
      && ((t ++ post).take 11).all isIdChar) = true := by
    rw [htake, Bool.and_eq_true]
    exact ⟨decide_eq_true hlen, List.all_eq_true.mpr hall⟩
  unfold idTokenAt
  rw [if_pos hcond, htake]

theorem matchAt_sound (l t : List Char) (h : matchAt l = some t) :
    IsIdToken t ∧
      ∃ post, l = 'v' :: '=' :: (t ++ post) ∨ l = '/' :: (t ++ post) := by
  unfold matchAt at h
  split at h
  · obtain ⟨hid, post, hpost⟩ := idTokenAt_sound _ _ h
    exact ⟨hid, post, Or.inl (by rw [hpost])⟩
  · obtain ⟨hid, post, hpost⟩ := idTokenAt_sound _ _ h
    exact ⟨hid, post, Or.inr (by rw [hpost])⟩
  · cases h

theorem searchFrom_sound (l t : List Char) (h : searchFrom l = some t) :
    HasToken l t := by
  induction l with
  | nil => cases h
  | cons c rest ih =>
    rw [searchFrom_cons] at h
    cases hm : matchAt (c :: rest) with
    | some t0 =>
      rw [hm] at h
      cases h
      obtain ⟨hid, post, hpost⟩ := matchAt_sound _ _ hm
      rcases hpost with he | he
      · exact ⟨hid, [], post, Or.inl (by rw [he]; rfl)⟩
      · exact ⟨hid, [], post, Or.inr (by rw [he]; rfl)⟩
    | none =>
      rw [hm] at h
      obtain ⟨hid, pre, post, hdec⟩ := ih h
      rcases hdec with he | he
      · exact ⟨hid, c :: pre, post, Or.inl (by rw [he]; rfl)⟩
      · exact ⟨hid, c :: pre, post, Or.inr (by rw [he]; rfl)⟩

theorem searchFrom_complete_aux (t post : List Char) (hid : IsIdToken t)
    (pre : List Char) :
    (∃ t0, searchFrom (pre ++ 'v' :: '=' :: (t ++ post)) = some t0) ∧
    (∃ t0, searchFrom (pre ++ '/' :: (t ++ post)) = some t0) := by
  induction pre with
  | nil =>
    constructor
    · have hm : matchAt ('v' :: '=' :: (t ++ post)) = some t := by
        show idTokenAt (t ++ post) = some t
        exact idTokenAt_complete t post hid
      exact ⟨t, by rw [List.nil_append, searchFrom_cons, hm]⟩
    · have hm : matchAt ('/' :: (t ++ post)) = some t := by
        show idTokenAt (t ++ post) = some t
        exact idTokenAt_complete t post hid
      exact ⟨t, by rw [List.nil_append, searchFrom_cons, hm]⟩
  | cons c pre ih =>
    constructor
    · obtain ⟨t0, ht0⟩ := ih.1
      cases hm : matchAt (c :: (pre ++ 'v' :: '=' :: (t ++ post))) with
      | some t1 => exact ⟨t1, by rw [List.cons_append, searchFrom_cons, hm]⟩
      | none => exact ⟨t0, by rw [List.cons_append, searchFrom_cons, hm]; exact ht0⟩
    · obtain ⟨t0, ht0⟩ := ih.2
      cases hm : matchAt (c :: (pre ++ '/' :: (t ++ post))) with
      | some t1 => exact ⟨t1, by rw [List.cons_append, searchFrom_cons, hm]⟩
      | none => exact ⟨t0, by rw [List.cons_append, searchFrom_cons, hm]; exact ht0⟩

theorem searchFrom_complete (l t : List Char) (h : HasToken l t) :
    ∃ t0, searchFrom l = some t0 := by
  obtain ⟨hid, pre, post, hdec⟩ := h
  rcases hdec with he | he
  · rw [he]; exact (searchFrom_complete_aux t post hid pre).1
  · rw [he]; exact (searchFrom_complete_aux t post hid pre).2

/-! ### Concurrency-model lemmas -/

/-- Writing completed results into their slots never changes the number of
slots. -/
theorem foldl_set_length (r : Nat → String) (order : List Nat)
    (acc : List (Option String)) :
    (order.foldl (fun a i => a.set i (some (r i))) acc).length = acc.length := by
  induction order generalizing acc with
  | nil => rfl
  | cons i rest ih => rw [List.foldl_cons, ih, List.length_set]

/-- After processing the completion events of `order`, slot `j` holds task
`j`'s result exactly if some event for task `j` occurred; other slots are
untouched.  (Every write to slot `j` writes the same value `r j`, so the
completion order is irrelevant.) -/
theorem foldl_set_getElem? (r : Nat → String) (order : List Nat)
    (acc : List (Option String)) (j : Nat) (hj : j < acc.length) :
    (order.foldl (fun a i => a.set i (some (r i))) acc)[j]?
      = if j ∈ order then some (some (r j)) else acc[j]? := by
  induction order generalizing acc with
  | nil => rw [List.foldl_nil, if_neg (List.not_mem_nil j)]
  | cons i rest ih =>
    rw [List.foldl_cons, ih (acc.set i (some (r i))) (by rwa [List.length_set])]
    by_cases hjr : j ∈ rest
    · rw [if_pos hjr, if_pos (List.mem_cons.mpr (Or.inr hjr))]
    · rw [if_neg hjr]
      by_cases hji : j = i
      · subst hji
        rw [if_pos (List.mem_cons.mpr (Or.inl rfl))]
        exact List.getElem?_set_self hj
      · rw [if_neg (by simp [List.mem_cons, hji, hjr])]
        exact List.getElem?_set_ne (fun h => hji h.symm)

/-- When every task index completes at least once, the slot array is exactly
the results in task-index order — whatever the completion order was. -/
theorem fillSlots_all (n : Nat) (r : Nat → String) (order : List Nat)
    (hcov : ∀ j < n, j ∈ order) :
    fillSlots n r order = (List.range n).map (fun j => some (r j)) := by
  apply List.ext_getElem?
  intro j
  by_cases hj : j < n
  · rw [fillSlots, foldl_set_getElem? r order _ j (by simpa using hj),
      if_pos (hcov j hj), List.getElem?_map, List.getElem?_range hj]
    rfl
  · have h1 : (fillSlots n r order).length ≤ j := by
      rw [fillSlots, foldl_set_length, List.length_replicate]
      omega
    have h2 : ((List.range n).map (fun j => some (r j))).length ≤ j := by
      rw [List.length_map, List.length_range]
      omega
    rw [List.getElem?_eq_none h1, List.getElem?_eq_none h2]

/-- Mapping over the index range and reading each element is the same as
mapping over the list. -/
theorem range_map_getD (l : List String) (f : String → String) :
    (List.range l.length).map (fun j => f (l.getD j "")) = l.map f := by
  apply List.ext_getElem?
  intro j
  by_cases hj : j < l.length
  · rw [List.getElem?_map, List.getElem?_map, List.getElem?_range hj,
      List.getElem?_eq_getElem hj]
    show some (f (l.getD j "")) = some (f l[j])
    rw [List.getD_eq_getElem?_getD, List.getElem?_eq_getElem hj]
    rfl
  · have h1 : ((List.range l.length).map (fun j => f (l.getD j ""))).length ≤ j := by
      rw [List.length_map, List.length_range]
      omega
    have h2 : (l.map f).length ≤ j := by
      rw [List.length_map]
      omega
    rw [List.getElem?_eq_none h1, List.getElem?_eq_none h2]

/-! ### Claim theorems -/

/-- C1, counterexample: on the 4097-character single-word text `aaaa...a` the
chunker cuts mid-word (chunks of 4096 and 1 characters), so the chunks' word
sequences concatenated in order do not reproduce the original word sequence:
the one original word becomes two. -/
theorem chunker_splits_words :
    ((sliceChunks (List.replicate 4097 'a')).map words).flatten
      ≠ words (List.replicate 4097 'a') := by
  have hnospace : ∀ n : Nat, ∀ c ∈ List.replicate n 'a', isSpace c = false := by
    intro n c hc
    rw [List.eq_of_mem_replicate hc]
    decide
  have h1 : words (List.replicate 4096 'a') = [List.replicate 4096 'a'] :=
    words_no_space _ (hnospace 4096) (replicate_ne_nil_of_pos _ _ (by norm_num))
  have h2 : words (List.replicate 4097 'a') = [List.replicate 4097 'a'] :=
    words_no_space _ (hnospace 4097) (replicate_ne_nil_of_pos _ _ (by norm_num))
  have h3 : words [('a' : Char)] = [['a']] := by
    have := hnospace 1
    rw [List.replicate_one] at this
    exact words_no_space _ this (by simp)
  rw [sliceChunks_replicate_4097, h2]
  simp only [List.map_cons, List.map_nil, h1, h3, List.flatten_cons,
    List.flatten_nil, List.append_nil, List.singleton_append]
  intro h
  have hlen := congrArg List.length h
  simp only [List.length_cons, List.length_nil] at hlen
  omega

/-- C1, amended: the chunker is a fixed-size character slicer, and it is
lossless at the character level: concatenating all chunks in order (with no
separator) reproduces the original text exactly, with nothing lost or
duplicated.  (Word boundaries are not respected — see the counterexample.) -/
theorem sliceChunks_lossless_chars (text : List Char) :
    (sliceChunks text).flatten = text :=
  sliceChunks_join_aux text.length text (le_refl _)

/-- C7, counterexample: a single whitespace-free word of 4097 characters
exceeds the 4096-character budget, and the chunker does not keep it as one
chunk of its own — it splits it into two chunks. -/
theorem oversized_word_not_own_chunk :
    words (List.replicate 4097 'b') = [List.replicate 4097 'b']
    ∧ 4096 < (List.replicate 4097 'b').length
    ∧ sliceChunks (List.replicate 4097 'b') ≠ [List.replicate 4097 'b'] := by
  refine ⟨?_, ?_, ?_⟩
  · exact words_no_space _
      (fun c hc => by rw [List.eq_of_mem_replicate hc]; decide)
      (replicate_ne_nil_of_pos _ _ (by norm_num))
  · rw [List.length_replicate]
    norm_num
  · rw [sliceChunks_replicate_4097]
    intro h
    have hlen := congrArg List.length h
    simp only [List.length_cons, List.length_nil] at hlen
    omega

/-- C7, amended: empty input yields zero chunks; nonempty input of at most
4096 characters yields exactly one chunk; and every chunk holds at most 4096
characters.  (A word longer than the budget is split across successive
chunks rather than dropped — not kept as a single oversized chunk.) -/
theorem sliceChunks_boundary (l : List Char) :
    sliceChunks ([] : List Char) = []
    ∧ (l ≠ [] → l.length ≤ 4096 → sliceChunks l = [l])
    ∧ ∀ c ∈ sliceChunks l, c.length ≤ 4096 := by
  refine ⟨rfl, ?_, ?_⟩
  · intro hne hlen
    have hm : 1 ≤ l.length := List.length_pos.mpr hne
    unfold sliceChunks
    have hdiv : (l.length + 4095) / 4096 = 1 := by
      have h1 : l.length + 4095 = (l.length - 1) + 4096 := by omega
      rw [h1, Nat.add_div_right _ (by norm_num), Nat.div_eq_of_lt (by omega)]
    rw [hdiv, List.range'_one]
    simp only [List.map_cons, List.map_nil, List.drop_zero]
    rw [List.take_of_length_le hlen]
  · intro c hc
    unfold sliceChunks at hc
    rw [List.mem_map] at hc
    obtain ⟨i, _, rfl⟩ := hc
    rw [List.length_take]
    exact min_le_left _ _

/-- C7, witness: the two-character text `hi` is nonempty and within budget,
so it forms exactly one chunk, and all its chunks respect the budget. -/
theorem sliceChunks_boundary_witness :
    sliceChunks ['h', 'i'] = [['h', 'i']]
    ∧ ∀ c ∈ sliceChunks ['h', 'i'], c.length ≤ 4096 :=
  ⟨(sliceChunks_boundary ['h', 'i']).2.1 (by decide) (by decide),
   (sliceChunks_boundary ['h', 'i']).2.2⟩

/-- C6: the extractor returns `some` token exactly when the URL contains an
11-character `[0-9A-Za-z_-]` token immediately after `v=` or `/`; the token
returned is such a token, and when no such pattern exists the result is the
not-found signal `none`.  The function is total, so it never raises. -/
theorem get_youtube_id_spec (url : String) :
    match get_youtube_id url with
    | some t => HasToken url.data t.data
    | none => ∀ t, ¬ HasToken url.data t := by
  unfold get_youtube_id
  cases hs : searchFrom url.data with
  | some t0 =>
    show HasToken url.data (String.mk t0).data
    exact searchFrom_sound _ _ hs
  | none =>
    intro t ht
    obtain ⟨t1, h1⟩ := searchFrom_complete _ _ ht
    rw [hs] at h1
    cases h1

/-- C3, counterexample: with configured secret `secret`, the header value
`secret` (which is not `Bearer secret`) is accepted, because
`split("Bearer ")[-1]` of a string not containing `Bearer ` is the string
itself.  The claim says every header other than `Bearer secret` is
rejected. -/
theorem auth_accepts_bare_secret :
    require_custom_authentication (some "secret") (some "secret") = none
    ∧ ("secret" : String) ≠ "Bearer secret" := by
  constructor
  · rfl
  · decide

/-- C3, amended: a request is rejected with 401 `{"error": "Unauthorized"}`
exactly when the `Authorization` header is absent or empty, the secret is
unset, or the substring of the header after the last occurrence of
`Bearer ` (the whole header when `Bearer ` does not occur) differs from the
secret.  In particular `Bearer <secret>` is accepted, but so is any header
whose final `Bearer `-split segment equals the secret, such as the bare
secret itself. -/
theorem auth_reject_characterization (secret_code auth_header : Option String) :
    require_custom_authentication secret_code auth_header
        = some ⟨401, RespBody.error "Unauthorized"⟩ ↔
      ¬ ∃ h s, auth_header = some h ∧ h ≠ "" ∧ secret_code = some s ∧
          splitLast "Bearer " h = s := by
  cases auth_header with
  | none => simp [require_custom_authentication]
  | some h =>
    by_cases hh : h = ""
    · subst hh
      simp [require_custom_authentication]
    · cases secret_code with
      | none => simp [require_custom_authentication, hh]
      | some s =>
        by_cases hs : splitLast "Bearer " h = s
        · simp [require_custom_authentication, hh, hs]
        · simp [require_custom_authentication, hh, hs]

/-- C10: when no secret is configured (`SECRET_CODE` unset, Python `None`),
every request is rejected with 401 `{"error": "Unauthorized"}`, whatever the
`Authorization` header is: `auth_header.split("Bearer ")[-1]` is a string
and a string never equals `None`. -/
theorem unset_secret_rejects_all (auth_header : Option String) :
    require_custom_authentication none auth_header
      = some ⟨401, RespBody.error "Unauthorized"⟩ := by
  cases auth_header with
  | none => rfl
  | some h =>
    by_cases hh : h = ""
    · simp [require_custom_authentication, hh]
    · simp [require_custom_authentication, hh]

/-- The chunk list of the 4097-character text `aaa...a`: one full chunk and
the single leftover character. -/
theorem textChunks_big :
    textChunks (String.mk (List.replicate 4097 'a'))
      = [String.mk (List.replicate 4096 'a'), "a"] := by
  unfold textChunks
  rw [show (String.mk (List.replicate 4097 'a')).data
      = List.replicate 4097 'a' from rfl, sliceChunks_replicate_4097]
  rfl

/-- C2, counterexample: a caption fetch that succeeds with an empty entry
list (so `process_transcript` returns a text, not the disabled signal) still
triggers the audio download and the speech-to-text call, because
`if not transcript_text` treats the empty caption text as absent.  The claim
says that when caption fetch succeeds these collaborators are never
invoked. -/
theorem caption_success_still_calls_audio :
    process_transcript (CaptionFetch.entries []) = some ""
    ∧ (transcribe ⟨.entries [], some "audio.mp3", "hi", fun _ => Except.ok "done"⟩
        (some "https://youtu.be/dQw4w9WgXcQ")).audioCalls = 1
    ∧ (transcribe ⟨.entries [], some "audio.mp3", "hi", fun _ => Except.ok "done"⟩
        (some "https://youtu.be/dQw4w9WgXcQ")).sttCalls = 1 :=
  ⟨rfl, rfl, rfl⟩

/-- C2, amended: for a valid URL, (A) when caption fetch succeeds with
nonempty concatenated text, the result is 200 with the formatted caption
text and audio/STT are never invoked; (B) when captions are disabled and
audio download succeeds, audio and STT run exactly once each and the result
is 200 with the formatted transcription output; (C) when captions are
disabled and audio download fails, the response is 500 with the
audio-specific message and STT never runs.  (Caption success with empty text
behaves like (B)/(C), not (A) — see the counterexample and C9.) -/
theorem transcribe_fallback_policy (u vid : String)
    (hget : get_youtube_id u = some vid)
    (es : List String) (hne : joinSpace es ≠ "")
    (p stt : String) (comp : Completion) (audio : Option String) :
    transcribe ⟨.entries es, audio, stt, comp⟩ (some u)
      = ⟨⟨200, .result (improve_text_with_gpt4 comp (joinSpace es))⟩, 0, 0, false⟩
    ∧ transcribe ⟨.disabled, some p, stt, comp⟩ (some u)
      = ⟨⟨200, .result (improve_text_with_gpt4 comp stt)⟩, 1, 1, true⟩
    ∧ transcribe ⟨.disabled, none, stt, comp⟩ (some u)
      = ⟨⟨500, .error "Could not retrieve audio for Whisper AI."⟩, 1, 0, false⟩ := by
  have hu : u ≠ "" := by
    intro h
    subst h
    rw [show get_youtube_id "" = none from rfl] at hget
    cases hget
  refine ⟨?_, ?_, ?_⟩
  · simp [transcribe, hu, hget, process_transcript, hne]
  · simp [transcribe, hu, hget, process_transcript, whisper_path]
  · simp [transcribe, hu, hget, process_transcript, whisper_path]

/-- C2, witness: concrete runs of the three scenarios on the URL
`https://youtu.be/dQw4w9WgXcQ` with caption text `hello`, audio path
`audio.mp3` and transcription output `hi`. -/
theorem transcribe_fallback_policy_witness :
    transcribe ⟨.entries ["hello"], none, "hi", fun _ => Except.ok "done"⟩
        (some "https://youtu.be/dQw4w9WgXcQ")
      = ⟨⟨200, .result (improve_text_with_gpt4 (fun _ => Except.ok "done") "hello")⟩,
          0, 0, false⟩
    ∧ transcribe ⟨.disabled, some "audio.mp3", "hi", fun _ => Except.ok "done"⟩
        (some "https://youtu.be/dQw4w9WgXcQ")
      = ⟨⟨200, .result (improve_text_with_gpt4 (fun _ => Except.ok "done") "hi")⟩,
          1, 1, true⟩
    ∧ transcribe ⟨.disabled, none, "hi", fun _ => Except.ok "done"⟩
        (some "https://youtu.be/dQw4w9WgXcQ")
      = ⟨⟨500, .error "Could not retrieve audio for Whisper AI."⟩, 1, 0, false⟩ :=
  transcribe_fallback_policy "https://youtu.be/dQw4w9WgXcQ" "dQw4w9WgXcQ" rfl
    ["hello"] (by decide) "audio.mp3" "hi" (fun _ => Except.ok "done") none

/-- C9: a caption fetch that succeeds but yields an empty concatenated
transcript (empty entry list, or entries whose texts join to the empty
string) makes the endpoint behave exactly as if captions were disabled: the
whole request outcome — response, collaborator invocations, leftover file —
is identical. -/
theorem empty_caption_acts_as_disabled (es : List String)
    (hemp : joinSpace es = "") (audio : Option String) (stt : String)
    (comp : Completion) (url : Option String) :
    transcribe ⟨.entries es, audio, stt, comp⟩ url
      = transcribe ⟨.disabled, audio, stt, comp⟩ url := by
  cases url with
  | none => rfl
  | some u =>
    by_cases hu : u = ""
    · simp [transcribe, hu]
    · cases hget : get_youtube_id u with
      | none => simp [transcribe, hu, hget]
      | some vid => simp [transcribe, hu, hget, process_transcript, hemp, whisper_path]

/-- C9, witness: with an empty caption entry list, a disabled-captions run and
a successful-captions run of the same request coincide. -/
theorem empty_caption_acts_as_disabled_witness :
    transcribe ⟨.entries [], some "audio.mp3", "ok", fun _ => Except.ok "x"⟩
        (some "https://www.youtube.com/watch?v=dQw4w9WgXcQ")
      = transcribe ⟨.disabled, some "audio.mp3", "ok", fun _ => Except.ok "x"⟩
        (some "https://www.youtube.com/watch?v=dQw4w9WgXcQ") :=
  empty_caption_acts_as_disabled [] rfl (some "audio.mp3") "ok"
    (fun _ => Except.ok "x") (some "https://www.youtube.com/watch?v=dQw4w9WgXcQ")

/-- C8: on the fallback path with a successful audio download, the request
finishes (status 200) with the downloaded `audio.mp3` still on disk: the
source never deletes it on any exit path (there is no removal call in the
repository), contradicting the required release of the temporary file. -/
theorem audio_file_left_behind :
    (transcribe ⟨.disabled, some "audio.mp3", "hi", fun _ => Except.ok "ok"⟩
        (some "https://youtu.be/dQw4w9WgXcQ")).resp.status = 200
    ∧ (transcribe ⟨.disabled, some "audio.mp3", "hi", fun _ => Except.ok "ok"⟩
        (some "https://youtu.be/dQw4w9WgXcQ")).audioFileLeft = true :=
  ⟨rfl, rfl⟩

/-- C4: a chunk whose completion call raises `OpenAIError` contributes
exactly the inline marker `OpenAI API error: <message>` in its own slot of
the assembled list; every chunk whose call succeeds contributes its
formatted text in its own slot; the final output joins exactly these slots
in order; and the response status never depends on the completion
collaborator, so a formatting failure is never fatal to the request. -/
theorem chunk_failure_isolated (comp : Completion) (text : String) (i : Nat)
    (hi : i < (textChunks text).length) (e : String)
    (hfail : comp ((textChunks text).getD i "") = Except.error e) :
    ((textChunks text).map (process_chunk comp)).getD i ""
        = "OpenAI API error: " ++ e
    ∧ (∀ j, j < (textChunks text).length → ∀ t,
        comp ((textChunks text).getD j "") = Except.ok t →
        ((textChunks text).map (process_chunk comp)).getD j "" = t)
    ∧ improve_text_with_gpt4 comp text
        = joinSpace ((textChunks text).map (process_chunk comp))
    ∧ ∀ env env' : Env, ∀ u : Option String,
        env.captions = env'.captions → env.audio = env'.audio →
        (transcribe env u).resp.status = (transcribe env' u).resp.status := by
  have hmap : ∀ j, j < (textChunks text).length →
      ((textChunks text).map (process_chunk comp)).getD j ""
        = process_chunk comp ((textChunks text).getD j "") := by
    intro j hj
    rw [List.getD_eq_getElem?_getD, List.getD_eq_getElem?_getD,
      List.getElem?_map, List.getElem?_eq_getElem hj]
    rfl
  refine ⟨?_, ?_, rfl, ?_⟩
  · rw [hmap i hi]
    unfold process_chunk
    rw [hfail]
  · intro j hj t hok
    rw [hmap j hj]
    unfold process_chunk
    rw [hok]
  · intro env env' u hc ha
    cases u with
    | none => rfl
    | some v =>
      by_cases hv : v = ""
      · simp [transcribe, hv]
      · cases hget : get_youtube_id v with
        | none => simp [transcribe, hv, hget]
        | some vid =>
          simp only [transcribe, hv, hget, if_neg hv]
          rw [hc]
          cases process_transcript env'.captions with
          | none =>
            show (whisper_path env).resp.status = (whisper_path env').resp.status
            unfold whisper_path
            rw [ha]
            cases env'.audio with
            | none => rfl
            | some q => rfl
          | some t =>
            by_cases ht : t = ""
            · simp only [ht, if_pos rfl]
              show (whisper_path env).resp.status = (whisper_path env').resp.status
              unfold whisper_path
              rw [ha]
              cases env'.audio with
              | none => rfl
              | some q => rfl
            · simp only [if_neg ht]
              rfl

/-- C4, witness: on the two-chunk text `aaa...a` (4097 characters) with a
collaborator that fails on the second chunk `a` and formats the first to
`fixed`, the assembled slots are the error marker at index 1 and the intact
formatted text at index 0. -/
theorem chunk_failure_isolated_witness :
    ((textChunks (String.mk (List.replicate 4097 'a'))).map
        (process_chunk wComp)).getD 1 "" = "OpenAI API error: boom"
    ∧ ((textChunks (String.mk (List.replicate 4097 'a'))).map
        (process_chunk wComp)).getD 0 "" = "fixed"
    ∧ (transcribe ⟨.disabled, some "audio.mp3", "hi", wComp⟩
          (some "https://youtu.be/dQw4w9WgXcQ")).resp.status
      = (transcribe ⟨.disabled, some "audio.mp3", "hi", fun _ => Except.ok "x"⟩
          (some "https://youtu.be/dQw4w9WgXcQ")).resp.status := by
  have T := chunk_failure_isolated wComp (String.mk (List.replicate 4097 'a')) 1
    (by rw [textChunks_big]; decide) "boom" (by rw [textChunks_big]; rfl)
  exact ⟨T.1, T.2.1 0 (by rw [textChunks_big]; decide) "fixed"
    (by rw [textChunks_big]; rfl),
    T.2.2.2 ⟨.disabled, some "audio.mp3", "hi", wComp⟩
      ⟨.disabled, some "audio.mp3", "hi", fun _ => Except.ok "x"⟩
      (some "https://youtu.be/dQw4w9WgXcQ") rfl rfl⟩

/-- C5: whatever order the concurrent completion calls finish in — as long as
every chunk's call eventually completes — the assembled output equals the
in-chunk-index-order assembly `improve_text_with_gpt4` produces: final
assembly is strictly by original chunk index, independent of completion
order. -/
theorem gather_order_independent (comp : Completion) (text : String)
    (order : List Nat)
    (hcov : ∀ j < (textChunks text).length, j ∈ order) :
    improveUnderSchedule comp text order = improve_text_with_gpt4 comp text := by
  unfold improveUnderSchedule
  rw [fillSlots_all _ _ _ hcov, List.map_map]
  unfold improve_text_with_gpt4
  congr 1
  exact range_map_getD (textChunks text) (process_chunk comp)

/-- C5, witness: on the two-chunk text `aaa...a` (4097 characters), the
schedule in which the later-indexed chunk's call returns before the
earlier-indexed one yields the same output as the in-order assembly. -/
theorem gather_order_independent_witness :
    improveUnderSchedule wComp (String.mk (List.replicate 4097 'a')) [1, 0]
      = improve_text_with_gpt4 wComp (String.mk (List.replicate 4097 'a')) :=
  gather_order_independent wComp (String.mk (List.replicate 4097 'a')) [1, 0]
    (by rw [textChunks_big]; decide)

end YT

